import Mathlib

/-
Shallow embedding of the job-execution and progress-tracking core of
src/src/main.rs (DNxHD Transcoder).

Modelling conventions:
  * Rust strings are modelled as `List Char`; `String` literals are turned
    into character lists with `String.data`.
  * `f64` arithmetic is modelled exactly over the rationals `Rat`; parsing a
    decimal numeral yields its exact rational value (rounding to the nearest
    binary float and overflow to infinity are not modelled).  The non-finite
    spellings accepted by the Rust float grammar are kept as explicit
    markers so that parse failure and non-finite success stay distinct.
  * Subprocess interaction is modelled by explicit outcome records: whether
    the spawn succeeded, whether the exit status was success, and the text
    the process produced.  A Rust panic is modelled by `none` at the level
    of a whole run.
-/

/- ------------------------------------------------------------------ -/
/- Character and list utilities                                        -/
/- ------------------------------------------------------------------ -/

/-- The Unicode white-space code points recognised by Rust `str::trim`. -/
def isWS (c : Char) : Bool :=
  c.toNat = 0x09 || c.toNat = 0x0A || c.toNat = 0x0B || c.toNat = 0x0C ||
  c.toNat = 0x0D || c.toNat = 0x20 || c.toNat = 0x85 || c.toNat = 0xA0 ||
  c.toNat = 0x1680 || (0x2000 ≤ c.toNat && c.toNat ≤ 0x200A) ||
  c.toNat = 0x2028 || c.toNat = 0x2029 || c.toNat = 0x202F ||
  c.toNat = 0x205F || c.toNat = 0x3000

/-- Model of Rust `str::trim`. -/
def trimChars (l : List Char) : List Char :=
  ((l.dropWhile isWS).reverse.dropWhile isWS).reverse

/-- Value of a list of ASCII digits, most significant first. -/
def digitsToNat (l : List Char) : Nat :=
  l.foldl (fun a c => a * 10 + (c.toNat - 48)) 0

/-- Model of Rust `str::parse::<u64>`: an optional leading plus sign, then
one or more ASCII digits, rejecting values that do not fit in 64 bits. -/
def parseU64 (s : List Char) : Option Nat :=
  let t : List Char :=
    match s with
    | '+' :: r => r
    | _ => s
  if t ≠ [] ∧ t.all Char.isDigit ∧ digitsToNat t < 2 ^ 64 then
    some (digitsToNat t)
  else none

/-- `stripKey pat l` models `l.strip_prefix(pat)`: the rest of `l` after the
leading occurrence of `pat`, or `none` when `l` does not begin with `pat`. -/
def stripKey : List Char → List Char → Option (List Char)
  | [], l => some l
  | _ :: _, [] => none
  | p :: ps, c :: cs => if p = c then stripKey ps cs else none

/-- `keyLeads pat l` models `l.starts_with(pat)`. -/
def keyLeads : List Char → List Char → Bool
  | [], _ => true
  | _ :: _, [] => false
  | p :: ps, c :: cs => p == c && keyLeads ps cs

/-- Index of the first occurrence of a character, as in `str::find`. -/
def firstIdx (c : Char) : List Char → Option Nat
  | [] => none
  | a :: xs => if a = c then some 0 else (firstIdx c xs).map (· + 1)

/-- Index of the last occurrence of a character, as in `str::rfind`. -/
def lastIdx (c : Char) : List Char → Option Nat
  | [] => none
  | a :: xs =>
    match lastIdx c xs with
    | some k => some (k + 1)
    | none => if a = c then some 0 else none

/-- Index of the first occurrence of a pattern, as in `str::find(&str)`. -/
def findSub (pat : List Char) : List Char → Option Nat
  | [] => if keyLeads pat [] then some 0 else none
  | c :: cs => if keyLeads pat (c :: cs) then some 0 else (findSub pat cs).map (· + 1)

/-- Occurrence count of a rational in a list of rationals. -/
def countQ (x : ℚ) : List ℚ → Nat
  | [] => 0
  | y :: ys => (if y = x then 1 else 0) + countQ x ys

def lbrace : Char := Char.ofNat 123

def rbrace : Char := Char.ofNat 125

/- ------------------------------------------------------------------ -/
/- Rust f64 parsing, modelled exactly over the rationals               -/
/- ------------------------------------------------------------------ -/

/-- Result of `str::parse::<f64>`: either an exact finite rational, or one
of the non-finite values the Rust grammar accepts by name. -/
inductive FVal where
  | fin (q : ℚ)
  | posinf
  | neginf
  | nan
deriving DecidableEq

def asciiLower (c : Char) : Char :=
  if 'A' ≤ c ∧ c ≤ 'Z' then Char.ofNat (c.toNat + 32) else c

/-- Digits, an optional dot, at least one digit overall: the mantissa part
of the Rust float grammar, valued exactly. -/
def parseMantissa (l : List Char) : Option ℚ :=
  let d1 := l.takeWhile Char.isDigit
  let r1 := l.dropWhile Char.isDigit
  match r1 with
  | [] => if d1 = [] then none else some ((digitsToNat d1 : ℚ))
  | '.' :: d2 =>
    if d2.all Char.isDigit then
      if d1 = [] ∧ d2 = [] then none
      else some ((digitsToNat d1 : ℚ) + (digitsToNat d2 : ℚ) / ((10 ^ d2.length : ℕ) : ℚ))
    else none
  | _ => none

/-- Mantissa followed by an optional exponent part. -/
def parseDecimal (t : List Char) : Option ℚ :=
  let mant := t.takeWhile (fun c => !(c == 'e' || c == 'E'))
  let rest := t.dropWhile (fun c => !(c == 'e' || c == 'E'))
  match rest with
  | [] => parseMantissa mant
  | _ :: es =>
    let se : Bool × List Char :=
      match es with
      | '-' :: r => (true, r)
      | '+' :: r => (false, r)
      | r => (false, r)
    if se.2 ≠ [] ∧ se.2.all Char.isDigit then
      (parseMantissa mant).map (fun m =>
        if se.1 then m / ((10 ^ digitsToNat se.2 : ℕ) : ℚ)
        else m * ((10 ^ digitsToNat se.2 : ℕ) : ℚ))
    else none

/-- Model of Rust `str::parse::<f64>`: optional sign, then either one of the
non-finite spellings or a decimal numeral with optional exponent. -/
def parseF64 (s : List Char) : Option FVal :=
  let st : Bool × List Char :=
    match s with
    | '-' :: r => (true, r)
    | '+' :: r => (false, r)
    | r => (false, r)
  let tl := st.2.map asciiLower
  if tl = "inf".data ∨ tl = "infinity".data then
    some (if st.1 then FVal.neginf else FVal.posinf)
  else if tl = "nan".data then some FVal.nan
  else (parseDecimal st.2).map (fun q => FVal.fin (if st.1 then -q else q))

/- ------------------------------------------------------------------ -/
/- DurationProbe (probe_duration_secs)                                 -/
/- ------------------------------------------------------------------ -/

/-- Model of `probe_duration_secs`.  The prober subprocess is abstracted by
`proc`: `none` when the process could not be run at all, otherwise
`some (success, stdout)`. -/
def probe_duration_secs (proc : Option (Bool × List Char)) : Option FVal :=
  match proc with
  | none => none
  | some (succ, out) => if succ then parseF64 (trimChars out) else none

/- ------------------------------------------------------------------ -/
/- ProgressParser (attach_progress)                                    -/
/- ------------------------------------------------------------------ -/

def usKey : List Char := "out_time_us=".data

def msKey : List Char := "out_time_ms=".data

def endKey : List Char := "progress=end".data

/-- Clamp to the interval used by the source: `frac.clamp(0.0, 0.999)`. -/
def clampQ (x : ℚ) : ℚ := max 0 (min x (999 / 1000))

/-- Callback behaviour for one parsed elapsed-microseconds value: with a
known (positive) duration, one clamped fraction; otherwise one `-1` sentinel
the first time, nothing afterwards.  Returns the new sentinel flag and the
emitted fractions. -/
def elapsedEvent (duration : ℚ) (sent : Bool) (us : Nat) : Bool × List ℚ :=
  if 0 < duration then (sent, [clampQ ((us : ℚ) / 1000000 / duration)])
  else if sent then (sent, []) else (true, [-1])

/-- The `out_time_ms=` fallback branch of the line handler. -/
def msPart (duration : ℚ) (sent : Bool) (line : List Char) : Bool × List ℚ :=
  match stripKey msKey line with
  | some rest =>
    match parseU64 (trimChars rest) with
    | some us => elapsedEvent duration sent us
    | none => (sent, [])
  | none => (sent, [])

/-- The elapsed-time handling of one progress line: `out_time_us=` is tried
first; only when it did not yield a value is `out_time_ms=` tried. -/
def elapsedPart (duration : ℚ) (sent : Bool) (line : List Char) : Bool × List ℚ :=
  match stripKey usKey line with
  | some rest =>
    match parseU64 (trimChars rest) with
    | some us => elapsedEvent duration sent us
    | none => msPart duration sent line
  | none => msPart duration sent line

/-- One iteration of the read loop of `attach_progress`: elapsed-time
handling, then the `progress=end` check (`starts_with`). -/
def processLine (duration : ℚ) (sent : Bool) (line : List Char) : Bool × List ℚ :=
  let r := elapsedPart duration sent line
  if keyLeads endKey line then (r.1, r.2 ++ [1]) else r

/-- The whole read loop over the given stream of lines. -/
def processLines (duration : ℚ) : Bool → List (List Char) → List ℚ
  | _, [] => []
  | sent, l :: ls =>
    let r := processLine duration sent l
    r.2 ++ processLines duration r.1 ls

/-- Model of `attach_progress`: the sequence of `on_progress` invocations
produced while reading the given progress lines, starting with the
indeterminate sentinel not yet sent. -/
def attach_progress (duration : ℚ) (lines : List (List Char)) : List ℚ :=
  processLines duration false lines

/-- The sentinel flag after processing a run of lines. -/
def finalSent (duration : ℚ) : Bool → List (List Char) → Bool
  | s, [] => s
  | s, l :: ls => finalSent duration (processLine duration s l).1 ls

/-- A line that carries a parseable elapsed-time value under either key. -/
def elapsedLineOk (l : List Char) : Bool :=
  (match stripKey usKey l with
   | some r => (parseU64 (trimChars r)).isSome
   | none => false) ||
  (match stripKey msKey l with
   | some r => (parseU64 (trimChars r)).isSome
   | none => false)

/- ------------------------------------------------------------------ -/
/- LoudnessMeasurer (measure_loudness_params, extract_json_number)     -/
/- ------------------------------------------------------------------ -/

def isNumChar (c : Char) : Bool := c.isDigit || c == '-' || c == '.'

/-- The tolerant number scanner of `extract_json_number`: characters before
the first digit, minus sign or dot are skipped; accumulation stops at the
first non-matching character after it has begun. -/
def scanNum : List Char → List Char
  | [] => []
  | c :: cs => if isNumChar c then c :: cs.takeWhile isNumChar else scanNum cs

/-- Model of `extract_json_number`: find `"key"`, skip to the following
colon, scan a number, parse it as f64. -/
def extract_json_number (s key : List Char) : Option ℚ :=
  match findSub ('"' :: key ++ ['"']) s with
  | none => none
  | some pos =>
    let rest := s.drop (pos + (key.length + 2))
    match firstIdx ':' rest with
    | none => none
    | some ci =>
      match parseF64 (scanNum (rest.drop (ci + 1))) with
      | some (FVal.fin q) => some q
      | _ => none

structure LoudnessParams where
  i : ℚ
  lra : ℚ
  tp : ℚ
  thresh : ℚ
deriving DecidableEq

/-- The four-field extraction applied to the delimited block, with the
per-field fallback key spelling and default constant of the source. -/
def loudness_from_block (json_str : List Char) : LoudnessParams :=
  { i := ((extract_json_number json_str ("input_i".data)).orElse
      (fun _ => extract_json_number json_str ("measured_I".data))).getD (-23)
    lra := ((extract_json_number json_str ("input_lra".data)).orElse
      (fun _ => extract_json_number json_str ("measured_LRA".data))).getD 7
    tp := ((extract_json_number json_str ("input_tp".data)).orElse
      (fun _ => extract_json_number json_str ("measured_TP".data))).getD (-2)
    thresh := ((extract_json_number json_str ("input_thresh".data)).orElse
      (fun _ => extract_json_number json_str ("measured_thresh".data))).getD (-34) }

/-- Observable behaviour of the measurement subprocess. -/
structure MeasureOutcome where
  spawnOk : Bool
  exitOk : Bool
  output : List Char
deriving DecidableEq

/-- Result of `measure_loudness_params`: an error propagated by `?`, an
`Ok` value, or a panic of the slice `&txt[start..=end]`. -/
inductive MeasureResult where
  | panicked
  | failed (msg : String)
  | ok (p : Option LoudnessParams)
deriving DecidableEq

/-- Model of `measure_loudness_params`.  The slice `&txt[start..=end]` with
`start` the first brace-open and `end` the last brace-close position is an
empty slice when `start = end + 1` and panics when `start > end + 1`. -/
def measure_loudness_params (m : MeasureOutcome) : MeasureResult :=
  if !m.spawnOk then MeasureResult.failed "Falha ao iniciar ffmpeg para medição EBU R128"
  else if !m.exitOk then MeasureResult.ok none
  else
    match firstIdx lbrace m.output, lastIdx rbrace m.output with
    | some s, some e =>
      if e + 1 < s then MeasureResult.panicked
      else MeasureResult.ok (some (loudness_from_block ((m.output.drop s).take (e + 1 - s))))
    | some _, none => MeasureResult.ok none
    | none, _ => MeasureResult.ok none

/- ------------------------------------------------------------------ -/
/- TranscodeJob (run_ffmpeg_with_progress)                             -/
/- ------------------------------------------------------------------ -/

/-- Observable behaviour of one encoder pass subprocess. -/
structure PassOutcome where
  spawnOk : Bool
  lines : List (List Char)
  exitOk : Bool
  exitCode : Option Int
deriving DecidableEq

/-- Rendering of `{:?}` on `status.code()`. -/
def fmtExitCode : Option Int → String
  | none => "None"
  | some k => "Some(" ++ toString k ++ ")"

/-- The plain (non-normalized) encode pass: spawn, stream progress, check
exit status. -/
def run_plain_pass (duration : ℚ) (ffmpeg_path : String) (p : PassOutcome) :
    List ℚ × Except String Unit :=
  if !p.spawnOk then ([], Except.error ("Unable to start ffmpeg on " ++ ffmpeg_path))
  else
    let evs := attach_progress duration p.lines
    if p.exitOk then (evs, Except.ok ())
    else (evs, Except.error ("ffmpeg returned error code: " ++ fmtExitCode p.exitCode))

/-- Model of `run_ffmpeg_with_progress` for one input.  The result is the
list of progress-callback fractions paired with the terminal `Result`;
`none` models a panic reaching the caller.  `duration` is the probed
duration with `0` substituted when probing failed. -/
def run_ffmpeg_with_progress (duration : ℚ) (ffmpeg_path : String)
    (normalize_ebu_r128 : Bool) (measure : MeasureOutcome)
    (normPass plainPass : PassOutcome) :
    Option (List ℚ × Except String Unit) :=
  if normalize_ebu_r128 then
    match measure_loudness_params measure with
    | MeasureResult.panicked => none
    | MeasureResult.failed e => some ([], Except.error e)
    | MeasureResult.ok (some _) =>
      if !normPass.spawnOk then
        some ([], Except.error "Failed to start ffmpeg (normalization)")
      else
        let evs := attach_progress duration normPass.lines
        if normPass.exitOk then some (evs, Except.ok ())
        else some (evs, Except.error
          ("ffmpeg returned error code on normalization pass: " ++ fmtExitCode normPass.exitCode))
    | MeasureResult.ok none => some (run_plain_pass duration ffmpeg_path plainPass)
  else some (run_plain_pass duration ffmpeg_path plainPass)

/- ------------------------------------------------------------------ -/
/- JobRunner (the worker thread of btn_start)                          -/
/- ------------------------------------------------------------------ -/

/-- Events sent through the channel for one job, given the fractions its
progress callback forwarded and its terminal result: the initial
`Starting...` event, one `Converting...` event per fraction, then exactly
one terminal event. -/
def jobEvents (idx : Nat) (fracs : List ℚ) (res : Except String Unit) :
    List (Nat × String × ℚ) :=
  (idx, "Starting...", 1 / 100) ::
    (fracs.map (fun f => (idx, "Converting...", f)) ++
      match res with
      | Except.ok _ => [(idx, "Completed", (1 : ℚ))]
      | Except.error e => [(idx, "Error: " ++ e, (0 : ℚ))])

/-- The worker loop from position `i` on: jobs run strictly in order and a
failed job does not stop the iteration. -/
def runJobsFrom : Nat → List (List ℚ × Except String Unit) → List (Nat × String × ℚ)
  | _, [] => []
  | i, j :: js => jobEvents i j.1 j.2 ++ runJobsFrom (i + 1) js

/-- Model of the worker thread over the whole job list. -/
def workerEvents (jobs : List (List ℚ × Except String Unit)) : List (Nat × String × ℚ) :=
  runJobsFrom 0 jobs

/-- Terminal events are those with status `Completed` or `Error: ...`. -/
def isTerminal (ev : Nat × String × ℚ) : Bool :=
  ev.2.1 == "Completed" || keyLeads ("Error: ".data) ev.2.1.data

/-- The terminal event the worker sends for a job with the given result. -/
def terminalEvent (idx : Nat) (res : Except String Unit) : Nat × String × ℚ :=
  match res with
  | Except.ok _ => (idx, "Completed", 1)
  | Except.error e => (idx, "Error: " ++ e, 0)

/- ------------------------------------------------------------------ -/
/- Output-path construction and encoder arguments                      -/
/- ------------------------------------------------------------------ -/

/-- Split a character list at every slash. -/
def splitOnSlash : List Char → List (List Char)
  | [] => [[]]
  | c :: cs =>
    let r := splitOnSlash cs
    if c = '/' then [] :: r
    else
      match r with
      | [] => [[c]]
      | s :: ss => (c :: s) :: ss

/-- Components of a path, as `std::path` sees them: a root marker, an
optional leading current-directory marker, and the normal segments with
empty and `.` segments dropped. -/
def pathComps (l : List Char) : Bool × List (List Char) :=
  let abs : Bool :=
    match l with
    | '/' :: _ => true
    | _ => false
  let segs := (splitOnSlash l).filter (fun s => decide (s ≠ [] ∧ s ≠ ['.']))
  let leadCur : Bool :=
    match l with
    | ['.'] => true
    | '.' :: '/' :: _ => true
    | _ => false
  (abs, (if leadCur then [['.']] else []) ++ segs)

/-- Join path segments with slashes. -/
def joinSegs : List (List Char) → List Char
  | [] => []
  | [s] => s
  | s :: ss => s ++ '/' :: joinSegs ss

def renderPath (abs : Bool) (comps : List (List Char)) : List Char :=
  if abs then '/' :: joinSegs comps else joinSegs comps

/-- Model of `Path::parent`. -/
def parentPath (l : List Char) : Option (List Char) :=
  let pc := pathComps l
  if pc.2 = [] then none else some (renderPath pc.1 pc.2.dropLast)

/-- Model of `Path::file_name`. -/
def fileName (l : List Char) : Option (List Char) :=
  match (pathComps l).2.getLast? with
  | none => none
  | some c => if c = ['.'] ∨ c = ['.', '.'] then none else some c

/-- Model of `Path::file_stem`. -/
def fileStem (l : List Char) : Option (List Char) :=
  (fileName l).map (fun n =>
    match lastIdx '.' n with
    | none => n
    | some 0 => n
    | some k => n.take k)

/-- Model of `Path::join`. -/
def joinPath (a b : List Char) : List Char :=
  match b with
  | '/' :: _ => b
  | _ =>
    if a = [] then b
    else if a.getLast? = some '/' then a ++ b
    else a ++ '/' :: b

/-- The container extension choice of the worker. -/
def extFor (container : String) : List Char :=
  if container == "mxf" then "mxf".data else "mov".data

/-- The `<base>/transcoded` directory the worker creates: the configured
output directory, or else the parent of the first input (falling back to
`.`). -/
def worker_out_dir (outputDir : Option (List Char)) (firstFile : List Char) : List Char :=
  joinPath
    (match outputDir with
     | some d => d
     | none => (parentPath firstFile).getD ['.'])
    ("transcoded".data)

/-- The output path the worker computes for one input. -/
def worker_output_path (outputDir : Option (List Char)) (firstFile : List Char)
    (container : String) (input : List Char) : List Char :=
  joinPath (worker_out_dir outputDir firstFile)
    (((fileStem input).getD ("output".data)) ++ '.' :: extFor container)

/-- Modelled from the spec: output files are written under
`<output_dir>/transcoded/<input_stem>.<container_ext>`, the base directory
being the configured output directory or, when absent, the parent directory
of the first input. -/
def spec_output_path (outputDir : Option (List Char)) (parentOfFirst : List Char)
    (container : String) (stem : List Char) : List Char :=
  joinPath (joinPath (outputDir.getD parentOfFirst) ("transcoded".data))
    (stem ++ '.' :: extFor container)

/-- Model of `select_pix_fmt`. -/
def select_pix_fmt (profile : String) : String :=
  if profile == "dnxhr_hqx" then "yuv422p10le"
  else if profile == "dnxhr_444" then "yuv444p10le"
  else "yuv422p"

/-- Banker-style rounding to an integer. -/
def roundHalfEven (q : ℚ) : ℤ :=
  let f := Int.floor q
  let r := q - f
  f + (if r > 1 / 2 then 1 else if r < 1 / 2 then 0 else if f % 2 = 0 then 0 else 1)

def pad3 (k : Nat) : String :=
  if k < 10 then "00" ++ toString k
  else if k < 100 then "0" ++ toString k
  else toString k

/-- Rendering of `{:.3}` on the target frame rate. -/
def fmt3 (q : ℚ) : String :=
  let n := roundHalfEven (q * 1000)
  let sign := if n < 0 then "-" else ""
  let m := n.natAbs
  sign ++ toString (m / 1000) ++ "." ++ pad3 (m % 1000)

/-- The fixed argument list `base_cmd` builds for an encode pass. -/
def base_cmd_args (profile : String) (audio_bits audio_channels : Nat)
    (preserve_fps : Bool) (target_fps : ℚ) (set_timecode : Bool) (timecode : String)
    (input output : String) : List String :=
  ["-y", "-i", input, "-c:v", "dnxhd", "-profile:v", profile,
   "-pix_fmt", select_pix_fmt profile,
   "-c:a", if audio_bits == 24 then "pcm_s24le" else "pcm_s16le",
   "-ac", toString audio_channels] ++
  (if preserve_fps then [] else ["-r", fmt3 target_fps]) ++
  (if set_timecode then ["-timecode", timecode] else []) ++
  ["-progress", "pipe:1", "-nostats", output]

/- ------------------------------------------------------------------ -/
/- Helper lemmas                                                       -/
/- ------------------------------------------------------------------ -/

theorem stripKey_append (p r : List Char) : stripKey p (p ++ r) = some r := by
  induction p with
  | nil => rfl
  | cons c cs ih => simp [stripKey, ih]

theorem stripKey_some_eq {p l r : List Char} (h : stripKey p l = some r) : l = p ++ r := by
  induction p generalizing l with
  | nil => simpa [stripKey] using h
  | cons c cs ih =>
    cases l with
    | nil => simp [stripKey] at h
    | cons a xs =>
      by_cases hca : c = a
      · subst hca
        simp only [stripKey, if_pos rfl] at h
        simpa using ih h
      · simp [stripKey, hca] at h

theorem keyLeads_self_append (p r : List Char) : keyLeads p (p ++ r) = true := by
  induction p with
  | nil => rfl
  | cons c cs ih => simp [keyLeads, ih]

theorem clampQ_nonneg (x : ℚ) : 0 ≤ clampQ x := le_max_left _ _

theorem clampQ_le (x : ℚ) : clampQ x ≤ 999 / 1000 :=
  max_le (by norm_num) (min_le_right _ _)

theorem clampQ_lt_one (x : ℚ) : clampQ x < 1 :=
  lt_of_le_of_lt (clampQ_le x) (by norm_num)

theorem countQ_append (x : ℚ) (a b : List ℚ) :
    countQ x (a ++ b) = countQ x a + countQ x b := by
  induction a with
  | nil => simp [countQ]
  | cons y ys ih => simp [countQ, ih]; ring

theorem data_append_eq (s t : String) : (s ++ t).data = s.data ++ t.data := by
  cases s; cases t; rfl

theorem countQ_one_singleton : countQ (-1) [(1 : ℚ)] = 0 := by
  norm_num [countQ]

theorem processLine_shape (d : ℚ) (sent : Bool) (l : List Char) :
    (elapsedLineOk l = false ∧ (processLine d sent l).1 = sent ∧
      countQ (-1) (processLine d sent l).2 = 0)
    ∨ (elapsedLineOk l = true ∧ ∃ u, processLine d sent l = elapsedEvent d sent u) := by
  rcases hus : stripKey usKey l with _ | r
  · rcases hms : stripKey msKey l with _ | r2
    · left
      have he : elapsedPart d sent l = (sent, []) := by
        simp [elapsedPart, msPart, hus, hms]
      refine ⟨by simp [elapsedLineOk, hus, hms], ?_, ?_⟩
      · rw [processLine, he]
        split <;> rfl
      · rw [processLine, he]
        split
        · exact countQ_one_singleton
        · rfl
    · rcases hp : parseU64 (trimChars r2) with _ | u
      · left
        have he : elapsedPart d sent l = (sent, []) := by
          simp [elapsedPart, msPart, hus, hms, hp]
        refine ⟨by simp [elapsedLineOk, hus, hms, hp], ?_, ?_⟩
        · rw [processLine, he]
          split <;> rfl
        · rw [processLine, he]
          split
          · exact countQ_one_singleton
          · rfl
      · right
        have hl : l = msKey ++ r2 := stripKey_some_eq hms
        subst hl
        refine ⟨by simp [elapsedLineOk, hus, hms, hp], u, ?_⟩
        rw [processLine]
        have hend : keyLeads endKey (msKey ++ r2) = false := rfl
        simp only [hend, Bool.false_eq_true, if_false]
        simp [elapsedPart, msPart, hus, hms, hp]
  · have hl : l = usKey ++ r := stripKey_some_eq hus
    subst hl
    have hms : stripKey msKey (usKey ++ r) = none := rfl
    rcases hp : parseU64 (trimChars r) with _ | u
    · left
      have he : elapsedPart d sent (usKey ++ r) = (sent, []) := by
        simp [elapsedPart, msPart, hus, hms, hp]
      refine ⟨by simp [elapsedLineOk, hus, hms, hp], ?_, ?_⟩
      · rw [processLine, he]
        split <;> rfl
      · rw [processLine, he]
        split
        · exact countQ_one_singleton
        · rfl
    · right
      refine ⟨by simp [elapsedLineOk, hus, hms, hp], u, ?_⟩
      rw [processLine]
      have hend : keyLeads endKey (usKey ++ r) = false := rfl
      simp only [hend, Bool.false_eq_true, if_false]
      simp [elapsedPart, hus, hp]

theorem elapsedEvent_unknown (d : ℚ) (hnd : ¬ (0 < d)) (sent : Bool) (u : Nat) :
    elapsedEvent d sent u = if sent then (sent, []) else (true, [-1]) := by
  rw [elapsedEvent, if_neg hnd]

theorem countNeg1_lines (d : ℚ) (hd : d ≤ 0) (lines : List (List Char)) :
    ∀ sent : Bool,
      countQ (-1) (processLines d sent lines)
        = if sent then 0 else if lines.any elapsedLineOk then 1 else 0 := by
  have hnd : ¬ (0 < d) := not_lt.mpr hd
  induction lines with
  | nil =>
    intro sent
    cases sent <;> simp [processLines, countQ]
  | cons l ls ih =>
    intro sent
    rcases processLine_shape d sent l with ⟨hok, hst, hcnt⟩ | ⟨hok, u, heq⟩
    · show countQ (-1) ((processLine d sent l).2 ++ processLines d (processLine d sent l).1 ls)
        = _
      rw [countQ_append, hcnt, hst, ih sent]
      cases sent <;> simp [hok]
    · show countQ (-1) ((processLine d sent l).2 ++ processLines d (processLine d sent l).1 ls)
        = _
      rw [heq, elapsedEvent_unknown d hnd]
      cases sent
      · simp only [Bool.false_eq_true, if_false]
        rw [countQ_append]
        have h1 : countQ (-1) [(-1 : ℚ)] = 1 := by simp [countQ]
        simp only [h1]
        rw [ih true]
        simp [hok]
      · simp only [if_true]
        rw [countQ_append]
        simp only [countQ]
        rw [ih true]
        simp

theorem finalSent_no_ok (d : ℚ) (pre : List (List Char)) :
    ∀ sent : Bool, pre.any elapsedLineOk = false → finalSent d sent pre = sent := by
  induction pre with
  | nil => intro sent _; rfl
  | cons l ls ih =>
    intro sent h
    simp only [List.any_cons, Bool.or_eq_false_iff] at h
    show finalSent d (processLine d sent l).1 ls = sent
    rcases processLine_shape d sent l with ⟨_, hst, _⟩ | ⟨hok, _, _⟩
    · rw [hst]
      exact ih sent (by simp [h.2])
    · rw [h.1] at hok
      exact absurd hok (by simp)

theorem processLines_append_eq (d : ℚ) (a b : List (List Char)) :
    ∀ s, processLines d s (a ++ b)
      = processLines d s a ++ processLines d (finalSent d s a) b := by
  induction a with
  | nil => intro s; simp [processLines, finalSent]
  | cons l ls ih =>
    intro s
    show (processLine d s l).2 ++ processLines d (processLine d s l).1 (ls ++ b) = _
    rw [ih]
    simp [processLines, finalSent]

theorem one_not_in_elapsedEvent (d : ℚ) (sent : Bool) (u : Nat) :
    (1 : ℚ) ∉ (elapsedEvent d sent u).2 := by
  unfold elapsedEvent
  split
  · simp only [List.mem_singleton]
    exact fun h => (ne_of_lt (clampQ_lt_one _)) h.symm
  · split
    · simp
    · simp only [List.mem_singleton]
      norm_num

theorem one_not_in_elapsedPart (d : ℚ) (sent : Bool) (l : List Char) :
    (1 : ℚ) ∉ (elapsedPart d sent l).2 := by
  unfold elapsedPart msPart
  split
  · split
    · exact one_not_in_elapsedEvent d sent _
    · split
      · split
        · exact one_not_in_elapsedEvent d sent _
        · simp
      · simp
  · split
    · split
      · exact one_not_in_elapsedEvent d sent _
      · simp
    · simp

theorem jobEvents_idx (i : Nat) (f : List ℚ) (r : Except String Unit) :
    ∀ ev ∈ jobEvents i f r, ev.1 = i := by
  intro ev hev
  cases r with
  | ok u =>
    simp [jobEvents] at hev
    rcases hev with rfl | ⟨a, _, rfl⟩ | rfl <;> rfl
  | error e =>
    simp [jobEvents] at hev
    rcases hev with rfl | ⟨a, _, rfl⟩ | rfl <;> rfl

theorem runJobsFrom_idx_ge (js : List (List ℚ × Except String Unit)) :
    ∀ (i : Nat) (ev : Nat × String × ℚ), ev ∈ runJobsFrom i js → i ≤ ev.1 := by
  induction js with
  | nil => intro i ev h; simp [runJobsFrom] at h
  | cons j js ih =>
    intro i ev h
    rw [runJobsFrom] at h
    rcases List.mem_append.mp h with h | h
    · exact (jobEvents_idx i j.1 j.2 ev h).ge
    · exact le_trans (Nat.le_succ i) (ih (i + 1) ev h)

theorem isTerminal_starting_eval (i : Nat) (x : ℚ) :
    isTerminal (i, "Starting...", x) = false := rfl

theorem isTerminal_converting_eval (i : Nat) (x : ℚ) :
    isTerminal (i, "Converting...", x) = false := rfl

theorem isTerminal_completed_eval (i : Nat) (x : ℚ) :
    isTerminal (i, "Completed", x) = true := rfl

theorem isTerminal_error (i : Nat) (e : String) (x : ℚ) :
    isTerminal (i, "Error: " ++ e, x) = true := by
  have hB : keyLeads ("Error: ".data) (("Error: " ++ e).data) = true := by
    rw [data_append_eq]; rfl
  show ("Error: " ++ e == "Completed"
    || keyLeads ("Error: ".data) (("Error: " ++ e).data)) = true
  rw [hB, Bool.or_true]

theorem jobEvents_filter_terminal (i : Nat) (f : List ℚ) (r : Except String Unit) :
    (jobEvents i f r).filter (fun ev => ev.1 == i && isTerminal ev) = [terminalEvent i r] := by
  have hmap : (f.map (fun x => (i, "Converting...", x))).filter
      (fun ev => ev.1 == i && isTerminal ev) = [] := by
    apply List.filter_eq_nil_iff.mpr
    intro ev hev hp
    rcases List.mem_map.mp hev with ⟨a, _, rfl⟩
    simp [isTerminal_converting_eval] at hp
  cases r with
  | ok u =>
    cases u
    show ((i, "Starting...", (1 : ℚ) / 100) ::
      (f.map (fun x => (i, "Converting...", x)) ++ [(i, "Completed", (1 : ℚ))])).filter
        (fun ev => ev.1 == i && isTerminal ev) = [terminalEvent i (Except.ok ())]
    rw [List.filter_cons_of_neg (by simp [isTerminal_starting_eval]), List.filter_append,
      hmap, List.nil_append, List.filter_cons_of_pos (by simp [isTerminal_completed_eval]),
      List.filter_nil]
    rfl
  | error e =>
    show ((i, "Starting...", (1 : ℚ) / 100) ::
      (f.map (fun x => (i, "Converting...", x)) ++ [(i, "Error: " ++ e, (0 : ℚ))])).filter
        (fun ev => ev.1 == i && isTerminal ev) = [terminalEvent i (Except.error e)]
    rw [List.filter_cons_of_neg (by simp [isTerminal_starting_eval]), List.filter_append,
      hmap, List.nil_append, List.filter_cons_of_pos (by simp [isTerminal_error]),
      List.filter_nil]
    rfl

theorem runJobsFrom_filter (js : List (List ℚ × Except String Unit)) :
    ∀ (i k : Nat) (h : k < js.length),
      (runJobsFrom i js).filter (fun ev => ev.1 == i + k && isTerminal ev)
        = [terminalEvent (i + k) (js.get ⟨k, h⟩).2] := by
  induction js with
  | nil => intro i k h; exact absurd h (Nat.not_lt_zero k)
  | cons j js ih =>
    intro i k h
    rw [runJobsFrom, List.filter_append]
    cases k with
    | zero =>
      have h1 : (jobEvents i j.1 j.2).filter (fun ev => ev.1 == i + 0 && isTerminal ev)
          = [terminalEvent (i + 0) j.2] := by
        simpa using jobEvents_filter_terminal i j.1 j.2
      have h2 : (runJobsFrom (i + 1) js).filter
          (fun ev => ev.1 == i + 0 && isTerminal ev) = [] := by
        apply List.filter_eq_nil_iff.mpr
        intro ev hev hp
        have hge := runJobsFrom_idx_ge js (i + 1) ev hev
        simp only [Bool.and_eq_true, beq_iff_eq] at hp
        omega
      rw [h1, h2, List.append_nil]
      rfl
    | succ n =>
      have h1 : (jobEvents i j.1 j.2).filter
          (fun ev => ev.1 == i + (n + 1) && isTerminal ev) = [] := by
        apply List.filter_eq_nil_iff.mpr
        intro ev hev hp
        have hidx := jobEvents_idx i j.1 j.2 ev hev
        simp only [Bool.and_eq_true, beq_iff_eq] at hp
        omega
      have hrw : i + (n + 1) = (i + 1) + n := by omega
      rw [h1, List.nil_append, hrw, ih (i + 1) n (Nat.lt_of_succ_lt_succ h)]
      rfl

/- ------------------------------------------------------------------ -/
/- Claim theorems                                                      -/
/- ------------------------------------------------------------------ -/

/-- Claim C1: for every progress line carrying an elapsed-time value `v`
under either key spelling (`out_time_us=` or `out_time_ms=`, both read as
microseconds) processed while the total duration `d` is known (`d > 0`),
the parser invokes the progress callback with fraction `(v / 1000000) / d`
clamped to `[0, 0.999]`; the fraction never reaches `1` from an
elapsed-time line, and both key spellings yield the identical fraction for
identical `v`. -/
theorem claim_C1_elapsed_fraction (d : ℚ) (hd : 0 < d) (sent : Bool)
    (rest : List Char) (v : Nat) (hv : parseU64 (trimChars rest) = some v) :
    processLine d sent (usKey ++ rest)
        = (sent, [clampQ ((v : ℚ) / 1000000 / d)]) ∧
    processLine d sent (msKey ++ rest)
        = (sent, [clampQ ((v : ℚ) / 1000000 / d)]) ∧
    0 ≤ clampQ ((v : ℚ) / 1000000 / d) ∧
    clampQ ((v : ℚ) / 1000000 / d) ≤ 999 / 1000 := by
  have hus : stripKey usKey (usKey ++ rest) = some rest := stripKey_append _ _
  have hms : stripKey msKey (msKey ++ rest) = some rest := stripKey_append _ _
  have h1 : keyLeads endKey (usKey ++ rest) = false := rfl
  have h2 : keyLeads endKey (msKey ++ rest) = false := rfl
  have h3 : stripKey usKey (msKey ++ rest) = none := rfl
  refine ⟨?_, ?_, clampQ_nonneg _, clampQ_le _⟩
  · simp [processLine, elapsedPart, hus, hv, elapsedEvent, if_pos hd, h1]
  · simp [processLine, elapsedPart, msPart, h3, hms, hv, elapsedEvent, if_pos hd, h2]

/-- Witness for C1 at duration 2 and elapsed value 500000 under both key
spellings. -/
theorem claim_C1_elapsed_fraction_witness :
    processLine 2 false (usKey ++ "500000".data)
        = (false, [clampQ (((500000 : ℕ) : ℚ) / 1000000 / 2)]) ∧
    processLine 2 false (msKey ++ "500000".data)
        = (false, [clampQ (((500000 : ℕ) : ℚ) / 1000000 / 2)]) ∧
    0 ≤ clampQ (((500000 : ℕ) : ℚ) / 1000000 / 2) ∧
    clampQ (((500000 : ℕ) : ℚ) / 1000000 / 2) ≤ 999 / 1000 :=
  claim_C1_elapsed_fraction 2 (by norm_num) false ("500000".data) 500000 (by decide)

/-- Claim C2: with unknown duration (`d ≤ 0`), the whole stream carries
exactly one `-1` sentinel when some line has parseable elapsed-time data
and none otherwise; a run of leading lines without such data produces no
sentinel, and the stream splits at such a point with the sentinel flag
still clear, so the single sentinel falls on the first line carrying
parseable elapsed-time data. -/
theorem claim_C2_indeterminate_once (d : ℚ) (hd : d ≤ 0)
    (lines pre post : List (List Char))
    (hsplit : lines = pre ++ post) (hpre : pre.any elapsedLineOk = false) :
    countQ (-1) (attach_progress d lines)
        = (if lines.any elapsedLineOk then 1 else 0) ∧
    countQ (-1) (attach_progress d pre) = 0 ∧
    attach_progress d lines = attach_progress d pre ++ attach_progress d post := by
  refine ⟨?_, ?_, ?_⟩
  · have := countNeg1_lines d hd lines false
    simpa [attach_progress] using this
  · have := countNeg1_lines d hd pre false
    simp [attach_progress, this, hpre]
  · rw [hsplit, attach_progress, attach_progress, attach_progress,
      processLines_append_eq, finalSent_no_ok d pre false hpre]

/-- Witness for C2: a three-line stream at duration 0 whose first elapsed
line is the second one. -/
theorem claim_C2_indeterminate_once_witness :
    countQ (-1) (attach_progress 0 [("x=1".data), usKey ++ "5".data, msKey ++ "7".data])
        = (if ([("x=1".data), usKey ++ "5".data, msKey ++ "7".data]).any elapsedLineOk
           then 1 else 0) ∧
    countQ (-1) (attach_progress 0 [("x=1".data)]) = 0 ∧
    attach_progress 0 [("x=1".data), usKey ++ "5".data, msKey ++ "7".data]
      = attach_progress 0 [("x=1".data)]
        ++ attach_progress 0 [usKey ++ "5".data, msKey ++ "7".data] :=
  claim_C2_indeterminate_once 0 (by norm_num) _
    [("x=1".data)] [usKey ++ "5".data, msKey ++ "7".data] rfl (by decide)

/-- Claim C3, counterexample: the line `progress=end2` is not the end
marker, yet the parser invokes the callback with `1`, so the terminal
callback is not restricted to lines exactly equal to `progress=end`. -/
theorem claim_C3_counterexample :
    (processLine 5 false ("progress=end2".data)).2 = [1] ∧
    "progress=end2".data ≠ endKey :=
  ⟨rfl, by decide⟩

/-- Claim C3 as amended: the parser invokes the callback with the terminal
fraction `1` for a line if and only if the line starts with
`progress=end` (a prefix match, not exact equality), regardless of the
duration; a line matching no recognized key produces no callback. -/
theorem claim_C3_end_marker (d : ℚ) (sent : Bool) (l : List Char) :
    ((1 : ℚ) ∈ (processLine d sent l).2 ↔ keyLeads endKey l = true) ∧
    (stripKey usKey l = none → stripKey msKey l = none → keyLeads endKey l = false →
      (processLine d sent l).2 = []) := by
  constructor
  · constructor
    · intro h1
      by_contra hne
      have hf : keyLeads endKey l = false := by
        cases hk : keyLeads endKey l
        · rfl
        · exact absurd hk hne
      rw [processLine] at h1
      simp only [hf, Bool.false_eq_true, if_false] at h1
      exact one_not_in_elapsedPart d sent l h1
    · intro hk
      rw [processLine]
      simp only [hk, if_true]
      exact List.mem_append_right _ (List.mem_singleton.mpr rfl)
  · intro h1 h2 h3
    simp [processLine, elapsedPart, msPart, h1, h2, h3]

/-- Witness for C3 as amended: an unrecognized line produces no callback. -/
theorem claim_C3_end_marker_witness :
    (processLine 5 false ("x=1".data)).2 = [] :=
  (claim_C3_end_marker 5 false ("x=1".data)).2 (by decide) (by decide) (by decide)

/-- Claim C4: for every job list and every position in it, the worker emits
exactly one terminal event for that position — `Completed` with fraction
`1` when the job run succeeded and `Error: ...` with fraction `0` when it
failed — independently of how the other jobs fared, so a failure never
prevents the remaining jobs from being processed. -/
theorem claim_C4_terminal_per_job (jobs : List (List ℚ × Except String Unit))
    (k : Nat) (h : k < jobs.length) :
    (workerEvents jobs).filter (fun ev => ev.1 == k && isTerminal ev)
      = [terminalEvent k (jobs.get ⟨k, h⟩).2] := by
  have := runJobsFrom_filter jobs 0 k h
  simpa [workerEvents] using this

/-- Witness for C4: a failing first job followed by a succeeding second
job; the second job still gets its single `Completed` terminal event. -/
theorem claim_C4_terminal_per_job_witness :
    (workerEvents [([(1 : ℚ) / 2], Except.error "boom"), ([], Except.ok ())]).filter
      (fun ev => ev.1 == 1 && isTerminal ev) = [(1, "Completed", (1 : ℚ))] :=
  claim_C4_terminal_per_job [([(1 : ℚ) / 2], Except.error "boom"), ([], Except.ok ())]
    1 (by decide)

/-- Claim C5, failing input: a measurement pass that exits successfully
with combined output `\x7d x \x7b` (the first open brace after the last
close brace, so no delimited summary block exists) makes
`measure_loudness_params` hit the slice `&txt[4..=0]`, which panics, and
the job run therefore neither falls through to the plain pass nor produces
any outcome — while with normalization off the very same pass data would
have completed. -/
theorem claim_C5_measure_panic :
    measure_loudness_params ⟨true, true, "\x7d x \x7b".data⟩ = MeasureResult.panicked ∧
    firstIdx lbrace ("\x7d x \x7b".data) = some 4 ∧
    lastIdx rbrace ("\x7d x \x7b".data) = some 0 ∧
    run_ffmpeg_with_progress 1 "ffmpeg" true ⟨true, true, "\x7d x \x7b".data⟩
      ⟨true, [], true, none⟩ ⟨true, [], true, none⟩ = none ∧
    run_ffmpeg_with_progress 1 "ffmpeg" false ⟨true, true, "\x7d x \x7b".data⟩
      ⟨true, [], true, none⟩ ⟨true, [], true, none⟩ = some ([], Except.ok ()) :=
  ⟨rfl, by decide, by decide, rfl, rfl⟩

/-- Claim C6: each loudness field is extracted by first trying the
`input_*` key spelling and then the `measured_*` one, with defaults
`-23, 7, -2, -34` when neither yields a parseable number; a block
containing `"input_i": -18.4` yields integrated loudness `-18.4`, and a
block with neither `input_i` nor `measured_I` yields `-23`. -/
theorem claim_C6_loudness_extraction (s : List Char) (v : ℚ) :
    (extract_json_number s ("input_i".data) = some v → (loudness_from_block s).i = v) ∧
    (extract_json_number s ("input_i".data) = none →
      extract_json_number s ("measured_I".data) = some v → (loudness_from_block s).i = v) ∧
    (extract_json_number s ("input_i".data) = none →
      extract_json_number s ("measured_I".data) = none → (loudness_from_block s).i = -23) ∧
    (extract_json_number s ("input_lra".data) = none →
      extract_json_number s ("measured_LRA".data) = none → (loudness_from_block s).lra = 7) ∧
    (extract_json_number s ("input_tp".data) = none →
      extract_json_number s ("measured_TP".data) = none → (loudness_from_block s).tp = -2) ∧
    (extract_json_number s ("input_thresh".data) = none →
      extract_json_number s ("measured_thresh".data) = none →
        (loudness_from_block s).thresh = -34) ∧
    (loudness_from_block ("\x7b\"input_i\": -18.4\x7d".data)).i = -18.4 ∧
    (loudness_from_block ("\x7b\x7d".data)).i = -23 := by
  refine ⟨?_, ?_, ?_, ?_, ?_, ?_, ?_, rfl⟩
  · intro h
    simp [loudness_from_block, h, Option.orElse]
  · intro h1 h2
    simp [loudness_from_block, h1, h2, Option.orElse]
  · intro h1 h2
    simp [loudness_from_block, h1, h2, Option.orElse]
  · intro h1 h2
    simp [loudness_from_block, h1, h2, Option.orElse]
  · intro h1 h2
    simp [loudness_from_block, h1, h2, Option.orElse]
  · intro h1 h2
    simp [loudness_from_block, h1, h2, Option.orElse]
  · have h : (loudness_from_block ("\x7b\"input_i\": -18.4\x7d".data)).i
        = -(((18 : ℕ) : ℚ) + ((4 : ℕ) : ℚ) / ((10 ^ 1 : ℕ) : ℚ)) := rfl
    rw [h]
    norm_num

/-- Witness for C6: a block carrying `"input_i": 5` yields integrated
loudness 5 through the primary key spelling. -/
theorem claim_C6_loudness_extraction_witness :
    (loudness_from_block ("\x7b\"input_i\": 5\x7d".data)).i = ((5 : ℕ) : ℚ) :=
  (claim_C6_loudness_extraction ("\x7b\"input_i\": 5\x7d".data) ((5 : ℕ) : ℚ)).1 rfl

/-- Claim C7, counterexample: a prober run that succeeds with output `-5`
makes the probe return `some (-5)` although `-5` is not positive, so the
probe does not restrict its successes to finite positive numbers. -/
theorem claim_C7_counterexample :
    probe_duration_secs (some (true, "-5".data)) = some (FVal.fin (-((5 : ℕ) : ℚ))) ∧
    ¬ (0 < -((5 : ℕ) : ℚ)) :=
  ⟨rfl, by norm_num⟩

/-- Claim C7 as amended: the probe returns `none` exactly when the prober
fails to run, exits with non-success status, or its trimmed output does
not parse as an f64; every successfully parsed value is passed through
unchanged, including zero, negative and non-finite ones (callers treat
non-positive values as unknown duration). -/
theorem claim_C7_probe_contract (out : List Char) (v : FVal) :
    probe_duration_secs none = none ∧
    probe_duration_secs (some (false, out)) = none ∧
    (parseF64 (trimChars out) = none → probe_duration_secs (some (true, out)) = none) ∧
    (parseF64 (trimChars out) = some v → probe_duration_secs (some (true, out)) = some v) := by
  refine ⟨rfl, by simp [probe_duration_secs], ?_, ?_⟩
  · intro h
    simp [probe_duration_secs, h]
  · intro h
    simp [probe_duration_secs, h]

/-- Witness for C7 as amended: an unparseable output yields `none` and a
parseable one is passed through. -/
theorem claim_C7_probe_contract_witness :
    probe_duration_secs (some (true, "abc".data)) = none ∧
    probe_duration_secs (some (true, " 12.5 ".data))
      = some (FVal.fin (((12 : ℕ) : ℚ) + ((5 : ℕ) : ℚ) / ((10 ^ 1 : ℕ) : ℚ))) :=
  ⟨(claim_C7_probe_contract ("abc".data) (FVal.fin 0)).2.2.1 rfl,
   (claim_C7_probe_contract (" 12.5 ".data)
      (FVal.fin (((12 : ℕ) : ℚ) + ((5 : ℕ) : ℚ) / ((10 ^ 1 : ℕ) : ℚ)))).2.2.2 rfl⟩

/-- Claim C8: when the encoder subprocess of the pass actually run fails to
spawn — the plain pass when normalization is off or measurement yielded
nothing, or the normalization pass when measurement yielded parameters —
the job result is the spawn error and the progress-callback list is empty,
so the failure is surfaced before any progress event. -/
theorem claim_C8_spawn_failure (d : ℚ) (fp : String) (m : MeasureOutcome)
    (np pp : PassOutcome) (norm : Bool) :
    ((norm = false ∨ measure_loudness_params m = MeasureResult.ok none) →
      pp.spawnOk = false →
      run_ffmpeg_with_progress d fp norm m np pp
        = some ([], Except.error ("Unable to start ffmpeg on " ++ fp))) ∧
    (∀ p, measure_loudness_params m = MeasureResult.ok (some p) → np.spawnOk = false →
      run_ffmpeg_with_progress d fp true m np pp
        = some ([], Except.error "Failed to start ffmpeg (normalization)")) := by
  constructor
  · rintro (rfl | hm) hpp
    · simp [run_ffmpeg_with_progress, run_plain_pass, hpp]
    · cases norm
      · simp [run_ffmpeg_with_progress, run_plain_pass, hpp]
      · simp [run_ffmpeg_with_progress, hm, run_plain_pass, hpp]
  · intro p hm hnp
    simp [run_ffmpeg_with_progress, hm, hnp]

/-- Witness for C8: normalization requested, measurement exits non-zero,
and the plain pass fails to spawn; no progress events, error outcome. -/
theorem claim_C8_spawn_failure_witness :
    run_ffmpeg_with_progress 1 "ffmpeg" true ⟨true, false, []⟩
      ⟨true, [], true, none⟩ ⟨false, [], true, none⟩
      = some ([], Except.error ("Unable to start ffmpeg on " ++ "ffmpeg")) :=
  (claim_C8_spawn_failure 1 "ffmpeg" ⟨true, false, []⟩ ⟨true, [], true, none⟩
    ⟨false, [], true, none⟩ true).1 (Or.inr rfl) rfl

/-- Claim C9: the output path of each input is computed deterministically
as `<resolved base>/transcoded/<input_stem>.<container_ext>`, the base
being the configured output directory or else the parent of the first
input, exactly as the spec formula states; and the encoder argument list
starts with the overwrite flag `-y`, so a re-run overwrites the same
paths. -/
theorem claim_C9_output_path (od ff inp p st : List Char)
    (container profile timecode outName : String) (bits ch : Nat) (pfps stc : Bool)
    (tfps : ℚ) (hst : fileStem inp = some st) :
    (worker_output_path (some od) ff container inp
        = spec_output_path (some od) ff container st) ∧
    (parentPath ff = some p →
      worker_output_path none ff container inp = spec_output_path none p container st) ∧
    (base_cmd_args profile bits ch pfps tfps stc timecode "in" outName).head? = some "-y" := by
  refine ⟨?_, ?_, rfl⟩
  · simp [worker_output_path, worker_out_dir, spec_output_path, hst]
  · intro hp
    simp [worker_output_path, worker_out_dir, spec_output_path, hst, hp]

/-- Witness for C9 at a concrete absolute input path with no configured
output directory. -/
theorem claim_C9_output_path_witness :
    worker_output_path none ("/videos/a.mp4".data) "mov" ("/videos/a.mp4".data)
      = spec_output_path none ("/videos".data) "mov" ("a".data) :=
  (claim_C9_output_path [] ("/videos/a.mp4".data) ("/videos/a.mp4".data) ("/videos".data)
    ("a".data) "mov" "dnxhr_hq" "00:00:00:00" "out.mov" 16 2 true false 25
    (by decide)).2.1 (by decide)

/-- Claim C10: a line whose recognized elapsed-time key carries a value
that does not parse as an unsigned 64-bit decimal (such as `N/A` or a
negative value) produces no callback invocation at all and leaves the
parser state unchanged, under either key spelling and for any duration;
the read loop itself is a total function of the line stream. -/
theorem claim_C10_total_parse (d : ℚ) (sent : Bool) (rest : List Char)
    (hv : parseU64 (trimChars rest) = none) :
    processLine d sent (usKey ++ rest) = (sent, []) ∧
    processLine d sent (msKey ++ rest) = (sent, []) := by
  have hus : stripKey usKey (usKey ++ rest) = some rest := stripKey_append _ _
  have hms : stripKey msKey (msKey ++ rest) = some rest := stripKey_append _ _
  constructor
  · simp [processLine, elapsedPart, msPart, hus, hv,
      show stripKey msKey (usKey ++ rest) = none from rfl,
      show keyLeads endKey (usKey ++ rest) = false from rfl]
  · simp [processLine, elapsedPart, msPart, hms, hv,
      show stripKey usKey (msKey ++ rest) = none from rfl,
      show keyLeads endKey (msKey ++ rest) = false from rfl]

/-- Witness for C10 at the literal value `N/A`. -/
theorem claim_C10_total_parse_witness :
    processLine 3 false (usKey ++ "N/A".data) = (false, []) ∧
    processLine 3 false (msKey ++ "N/A".data) = (false, []) :=
  claim_C10_total_parse 3 false ("N/A".data) (by decide)
